import Mathlib

/-!
# Verification of `wxt/storage` (`src/packages/wxt/src/storage.ts`)

A shallow embedding of the storage module: JSON values, the per-area
key-value store of the browser storage backend, the driver operations from
`createDriver`, the key router (`resolveKey`), the metadata colocation layer
(`getMeta`/`setMeta`), the batch aggregator (`getItems`), the migration
engine (`migrate` inside `defineItem`) and the per-item initialization
guard (`getOrInitValue`), together with theorems settling the spec's claims.

JavaScript conventions modelled explicitly:
* `undefined` (an absent property) is `Option.none`; JSON `null` is the
  value `Json.null`.  `a ?? b` treats both the same way.
* JS object semantics: setting an existing property overwrites it in place,
  a new property is appended; property enumeration follows insertion order.
  A JS object never holds duplicate keys, so the operations below model the
  overwrite on the (unique) occurrence of the key.
* `typeof null === 'object'` (relevant to `getMetaValue`).
-/

/-- JSON-serializable values (what browser storage areas can hold).
Numbers are modelled as integers, enough for the versions and payloads
the claims quantify over. -/
inductive Json where
  | null
  | bool (b : Bool)
  | num (n : Int)
  | str (s : String)
  | arr (elems : List Json)
  | obj (fields : List (String × Json))

/-- The JS test `v == null` on a value read from storage (storage never
holds `undefined`, so only JSON `null` matches). -/
def Json.isNull : Json → Bool
  | .null => true
  | _ => false

/-- A JS object / one storage area's backing store: insertion-ordered
association list of string keys, duplicate-free by construction. -/
abbrev JsObj := List (String × Json)

/-- JS property write `o[k] = v`: overwrite in place when the key exists,
append otherwise. -/
def jsObjSet : JsObj → String → Json → JsObj
  | [], k, v => [(k, v)]
  | (k', v') :: rest, k, v =>
    if k' = k then (k, v) :: rest else (k', v') :: jsObjSet rest k v

/-- JS `delete o[k]`. -/
def jsObjDelete : JsObj → String → JsObj
  | [], _ => []
  | (k', v') :: rest, k =>
    if k' = k then jsObjDelete rest k else (k', v') :: jsObjDelete rest k

/-- JS property read `o[k]`: `none` is `undefined`. -/
def jsObjGet : JsObj → String → Option Json
  | [], _ => none
  | (k', v') :: rest, k => if k' = k then some v' else jsObjGet rest k

/-- `a ?? b` where `a` may be `undefined` (`none`) or `null`. -/
def jsCoalesce (a : Option Json) (b : Json) : Json :=
  match a with
  | none => b
  | some v => if v.isNull then b else v

theorem jsObjGet_set_self (o : JsObj) (k : String) (v : Json) :
    jsObjGet (jsObjSet o k v) k = some v := by
  induction o with
  | nil => simp [jsObjSet, jsObjGet]
  | cons p rest ih =>
    obtain ⟨k', v'⟩ := p
    by_cases h : k' = k <;> simp [jsObjSet, jsObjGet, h, ih]

theorem jsObjGet_set_other (o : JsObj) (k k' : String) (v : Json) (hne : k' ≠ k) :
    jsObjGet (jsObjSet o k v) k' = jsObjGet o k' := by
  induction o with
  | nil => simp [jsObjSet, jsObjGet, Ne.symm hne]
  | cons p rest ih =>
    obtain ⟨k₀, v₀⟩ := p
    by_cases h : k₀ = k
    · subst h
      simp [jsObjSet, jsObjGet, hne, Ne.symm hne]
    · by_cases h' : k₀ = k'
      · subst h'
        simp [jsObjSet, jsObjGet, h, hne]
      · simp [jsObjSet, jsObjGet, h, h', ih]

theorem jsObjGet_delete (o : JsObj) (k k' : String) :
    jsObjGet (jsObjDelete o k) k' = if k' = k then none else jsObjGet o k' := by
  induction o with
  | nil => simp [jsObjDelete, jsObjGet]
  | cons p rest ih =>
    obtain ⟨k₀, v₀⟩ := p
    by_cases h : k₀ = k
    · subst h
      by_cases h' : k' = k₀
      · subst h'
        simp [jsObjDelete, ih]
      · simp [jsObjDelete, jsObjGet, h', Ne.symm h', ih]
    · by_cases h' : k' = k₀
      · subst h'
        simp [jsObjDelete, jsObjGet, h, Ne.symm h]
      · simp [jsObjDelete, jsObjGet, h, h', Ne.symm h', ih]

/-! ## Storage areas and the key router (source lines 16–45) -/

/-- The configured storage areas (`createStorage`, lines 17–22). -/
inductive StorageArea where
  | «local»
  | session
  | sync
  | managed
deriving DecidableEq, Repr

/-- Lookup in the `drivers` record (`getDriver`, lines 23–30): `none`
models `driver == null`, i.e. an invalid area token. -/
def parseArea : String → Option StorageArea
  | "local" => some .«local»
  | "session" => some .session
  | "sync" => some .sync
  | "managed" => some .managed
  | _ => none

/-- The string form of an area, used to rebuild `${driverArea}:${key}`. -/
def areaName : StorageArea → String
  | .«local» => "local"
  | .session => "session"
  | .sync => "sync"
  | .managed => "managed"

/-- Errors the storage module raises. -/
inductive StorageError where
  | invalidArea (area : String)
  | malformedKey (key : String)
  | versionDowngrade (currentVersion targetVersion : Int) (key : String)

/-- Split a character list at the first `':'`: `none` when no colon occurs
(JS `indexOf` returning `-1`). -/
def splitCharsAtColon : List Char → Option (List Char × List Char)
  | [] => none
  | c :: cs =>
    if c = ':' then some ([], cs)
    else
      match splitCharsAtColon cs with
      | some (a, b) => some (c :: a, b)
      | none => none

theorem splitCharsAtColon_append {cs a b : List Char}
    (h : splitCharsAtColon cs = some (a, b)) : a ++ ':' :: b = cs := by
  induction cs generalizing a b with
  | nil => simp [splitCharsAtColon] at h
  | cons c rest ih =>
    by_cases hc : c = ':'
    · subst hc
      simp [splitCharsAtColon] at h
      obtain ⟨ha, hb⟩ := h
      subst ha; subst hb; rfl
    · simp only [splitCharsAtColon, if_neg hc] at h
      cases hsplit : splitCharsAtColon rest with
      | none => rw [hsplit] at h; exact absurd h (by simp)
      | some p =>
        obtain ⟨a', b'⟩ := p
        rw [hsplit] at h
        simp at h
        obtain ⟨ha, hb⟩ := h
        subst hb
        rw [← ha]
        simpa using ih hsplit

structure ResolvedKey where
  driverArea : StorageArea
  driverKey : String
deriving DecidableEq, Repr

/-- `resolveKey` (source lines 31–45).
`key.indexOf(':')` is `-1` when no colon occurs; then
`key.substring(0, -1) = ""` and `key.substring(0) = key`, so the area token
is `""` and the local key is the whole input before `getDriver` rejects the
empty area.  The source's `if (driverKey == null)` malformed-key check is
statically unreachable — `String.prototype.substring` always returns a
string, never `null`/`undefined` — so the model has no corresponding
branch (see claim C4). -/
def resolveKey (key : String) : Except StorageError ResolvedKey :=
  let split :=
    match splitCharsAtColon key.data with
    | some (a, b) => (String.mk a, String.mk b)
    | none => ("", key)
  match parseArea split.1 with
  | some area => .ok ⟨area, split.2⟩
  | none => .error (.invalidArea split.1)

/-- Resolved keys rebuild the original string: `area ++ ":" ++ localKey`
is exactly the input (`getItems` relies on this at source line 161). -/
theorem resolveKey_reconstruct {key : String} {r : ResolvedKey}
    (h : resolveKey key = .ok r) :
    areaName r.driverArea ++ ":" ++ r.driverKey = key := by
  unfold resolveKey at h
  cases hsplit : splitCharsAtColon key.data with
  | none =>
    rw [hsplit] at h
    simp only [parseArea] at h
    exact absurd h (by simp)
  | some p =>
    obtain ⟨a, b⟩ := p
    rw [hsplit] at h
    dsimp only at h
    cases harea : parseArea (String.mk a) with
    | none => rw [harea] at h; exact absurd h (by simp)
    | some area =>
      rw [harea] at h
      simp at h
      have hname : areaName area = String.mk a := by
        cases area <;>
          · revert harea
            unfold parseArea
            split <;> simp_all [areaName]
      have hdata : a ++ ':' :: b = key.data := splitCharsAtColon_append hsplit
      subst h
      simp only [hname]
      apply String.ext
      simpa [String.data] using hdata


/-! ## Area drivers (`createDriver`, source lines 548–606)

One driver wraps one browser storage area; the area's backing store is a
`JsObj`.  Backend availability checks (`getStorageArea`, lines 524–544) are
environment probes with no data behaviour and are not modelled. -/

/-- `driver.getItem` (lines 549–552): `res[key]`, `undefined` when absent. -/
def driverGetItem (store : JsObj) (key : String) : Option Json :=
  jsObjGet store key

/-- `driver.getItems` (lines 553–556): one entry per requested key, in
request order, absence coalesced to `null` (`result[key] ?? null`). -/
def driverGetItems (store : JsObj) (keys : List String) : List (String × Json) :=
  keys.map (fun key => (key, jsCoalesce (jsObjGet store key) Json.null))

/-- `driver.setItem` (lines 557–563): a `null`ish value removes the key,
anything else stores it. -/
def driverSetItem (store : JsObj) (key : String) (value : Json) : JsObj :=
  if value.isNull then jsObjDelete store key else jsObjSet store key value

/-- `driver.setItems` (lines 564–573): the entries are reduced into one JS
object (later duplicates overwrite earlier ones) and stored with a single
`area.set(map)` call — which, unlike `driver.setItem`, stores `null`
values as-is. -/
def driverSetItems (store : JsObj) (values : List (String × Json)) : JsObj :=
  (values.foldl (fun m kv => jsObjSet m kv.1 kv.2) []).foldl
    (fun st kv => jsObjSet st kv.1 kv.2) store

/-- `driver.snapshot` (lines 580–582): `area.get()` returns everything. -/
def driverSnapshot (store : JsObj) : JsObj :=
  store

/-! ## Metadata colocation layer (source lines 46–52, 62–66, 74–90) -/

/-- `getMetaKey` (line 46): the shadow key carries a `$` suffix. -/
def getMetaKey (key : String) : String := key ++ "$"

/-- `getValueOrFallback` (lines 47–48): `value ?? fallback ?? null`. -/
def getValueOrFallback (value : Option Json) (fallback : Option Json) : Json :=
  jsCoalesce value (jsCoalesce fallback Json.null)

/-- JS `typeof v === 'object'` — true for objects, arrays **and `null`**. -/
def jsTypeofIsObject : Json → Bool
  | .null => true
  | .arr _ => true
  | .obj _ => true
  | _ => false

/-- JS `Array.isArray`. -/
def Json.isArray : Json → Bool
  | .arr _ => true
  | _ => false

/-- `getMetaValue` (lines 49–52): keep the read value when
`typeof properties === 'object' && !Array.isArray(properties)`, otherwise
degrade to `{}`.  Because `typeof null === 'object'`, a stored literal
`null` passes the check and is kept (see claim C7). -/
def getMetaValue (properties : Option Json) : Json :=
  match properties with
  | some p => if jsTypeofIsObject p && !p.isArray then p else .obj []
  | none => .obj []

/-- The internal `getMeta` helper (lines 62–66). -/
def getMeta (store : JsObj) (driverKey : String) : Json :=
  getMetaValue (driverGetItem store (getMetaKey driverKey))

/-- JS object spread `{...v}`: the fields of an object, the indexed
elements of an array or string, and nothing for primitives or `null`. -/
def jsSpread : Json → List (String × Json)
  | .obj fs => fs
  | .arr xs => xs.enum.map (fun p => (toString p.1, p.2))
  | .str s => s.data.enum.map (fun p => (toString p.1, Json.str (String.mk [p.2])))
  | _ => []

/-- The internal `setMeta` helper (lines 74–90): read the shadow key
through `getMetaValue`, copy it (`{...existingFields}`), then for each
input field delete on a `null`ish value and overwrite otherwise, and store
the result back at the shadow key. -/
def setMeta (store : JsObj) (driverKey : String) (properties : List (String × Json)) :
    JsObj :=
  let metaKey := getMetaKey driverKey
  let existingFields := getMetaValue (driverGetItem store metaKey)
  let newFields :=
    properties.foldl
      (fun nf kv => if kv.2.isNull then jsObjDelete nf kv.1 else jsObjSet nf kv.1 kv.2)
      (jsSpread existingFields)
  driverSetItem store metaKey (.obj newFields)

/-! ## Single-item value helpers (source lines 54–61, 67–73) -/

/-- `GetItemOptions` (source lines 860–869): both fields are optional and
may also be explicitly `null`. -/
structure GetItemOptions where
  defaultValue : Option Json := none
  fallback : Option Json := none

/-- `opts?.fallback ?? opts?.defaultValue` (line 60), `undefined` when
`opts` itself is `undefined`. -/
def optsFallback (opts : Option GetItemOptions) : Option Json :=
  match opts with
  | none => none
  | some o =>
    match o.fallback with
    | some f => if f.isNull then o.defaultValue else some f
    | none => o.defaultValue

/-- The internal `getItem` helper (lines 54–61). -/
def getItem (store : JsObj) (driverKey : String) (opts : Option GetItemOptions) : Json :=
  getValueOrFallback (driverGetItem store driverKey) (optsFallback opts)

/-- The internal `setItem` helper (lines 67–73):
`driver.setItem(driverKey, value ?? null)`; with storage-representable
values (`undefined` excluded) the coalescing is the identity. -/
def setItem (store : JsObj) (driverKey : String) (value : Json) : JsObj :=
  driverSetItem store driverKey value

/-! ## Storage state and the public single-key operations -/

/-- The four area stores behind `createStorage`'s `drivers` record. -/
structure StorageState where
  localStore : JsObj
  sessionStore : JsObj
  syncStore : JsObj
  managedStore : JsObj

/-- The backing store of one area. -/
def StorageState.area (st : StorageState) : StorageArea → JsObj
  | .«local» => st.localStore
  | .session => st.sessionStore
  | .sync => st.syncStore
  | .managed => st.managedStore

/-- Replace the backing store of one area. -/
def StorageState.withArea (st : StorageState) : StorageArea → JsObj → StorageState
  | .«local», o => { st with localStore := o }
  | .session, o => { st with sessionStore := o }
  | .sync, o => { st with syncStore := o }
  | .managed, o => { st with managedStore := o }

theorem area_withArea_self (st : StorageState) (a : StorageArea) (o : JsObj) :
    (st.withArea a o).area a = o := by
  cases a <;> rfl

theorem area_withArea_other (st : StorageState) (a a' : StorageArea) (o : JsObj)
    (h : a' ≠ a) : (st.withArea a o).area a' = st.area a' := by
  cases a <;> cases a' <;> first | rfl | exact absurd rfl h

/-- `storage.getItem` (source lines 125–128). -/
def storageGetItem (st : StorageState) (key : String) (opts : Option GetItemOptions) :
    Except StorageError Json :=
  match resolveKey key with
  | .error e => .error e
  | .ok r => .ok (getItem (st.area r.driverArea) r.driverKey opts)

/-- `storage.setItem` (source lines 181–184). -/
def storageSetItem (st : StorageState) (key : String) (value : Json) :
    Except StorageError StorageState :=
  match resolveKey key with
  | .error e => .error e
  | .ok r => .ok (st.withArea r.driverArea (setItem (st.area r.driverArea) r.driverKey value))

/-- `storage.getMeta` (source lines 177–180). -/
def storageGetMeta (st : StorageState) (key : String) : Except StorageError Json :=
  match resolveKey key with
  | .error e => .error e
  | .ok r => .ok (getMeta (st.area r.driverArea) r.driverKey)

/-- `storage.setMeta` (source lines 207–210). -/
def storageSetMeta (st : StorageState) (key : String) (properties : List (String × Json)) :
    Except StorageError StorageState :=
  match resolveKey key with
  | .error e => .error e
  | .ok r => .ok (st.withArea r.driverArea (setMeta (st.area r.driverArea) r.driverKey properties))

/-- `storage.snapshot` (source lines 256–264): take the area's full
snapshot, then for each excluded key delete the key and its shadow
metadata key. -/
def storageSnapshot (st : StorageState) (base : StorageArea)
    (excludeKeys : List String) : JsObj :=
  excludeKeys.foldl
    (fun data key => jsObjDelete (jsObjDelete data key) (getMetaKey key))
    (driverSnapshot (st.area base))

/-- The field list of a JSON object (`[]` for anything else). -/
def jsonFields : Json → List (String × Json)
  | .obj fs => fs
  | _ => []

theorem jsObjGet_eq_none_of_not_mem {o : JsObj} {k : String}
    (h : k ∉ o.map Prod.fst) : jsObjGet o k = none := by
  induction o with
  | nil => rfl
  | cons p rest ih =>
    simp only [List.map_cons, List.mem_cons] at h
    push_neg at h
    simpa [jsObjGet, Ne.symm h.1] using ih h.2

/-- Field-level characterization of `setMeta`'s write loop
(source lines 82–88). -/
theorem setMetaFold_lookup (props : List (String × Json)) (nf : JsObj) (field : String)
    (hnodup : (props.map Prod.fst).Nodup) :
    jsObjGet
      (props.foldl
        (fun nf kv => if kv.2.isNull then jsObjDelete nf kv.1 else jsObjSet nf kv.1 kv.2)
        nf) field =
      match jsObjGet props field with
      | some v => if v.isNull then none else some v
      | none => jsObjGet nf field := by
  induction props generalizing nf with
  | nil => rfl
  | cons kv rest ih =>
    obtain ⟨k₀, v₀⟩ := kv
    simp only [List.map_cons, List.nodup_cons] at hnodup
    obtain ⟨hk₀, hrest⟩ := hnodup
    simp only [List.foldl_cons]
    rw [ih _ hrest]
    by_cases hf : field = k₀
    · subst hf
      rw [jsObjGet_eq_none_of_not_mem hk₀]
      simp only [jsObjGet, if_pos rfl]
      by_cases hv : v₀.isNull
      · simp [hv, jsObjGet_delete]
      · simp [hv, jsObjGet_set_self]
    · have hfk : k₀ ≠ field := fun e => hf e.symm
      simp only [jsObjGet, if_neg hfk]
      cases hrl : jsObjGet rest field with
      | some v => rfl
      | none =>
        by_cases hv : v₀.isNull
        · simp [hv, jsObjGet_delete, hf]
        · simp [hv, jsObjGet_set_other _ _ _ _ hf]

/-- Claim C4 (code bug in the source): the malformed-key check in
`resolveKey` is dead code, because `String.prototype.substring` can never
return `null`.  The key `"local:"`, whose local-key segment is empty after
the delimiter, resolves successfully to the empty driver key instead of
failing with the malformed-key error.  Unknown area tokens do fail eagerly
with the invalid-area error, and a key without any delimiter fails as
area `""`. -/
theorem C4_empty_local_key_accepted :
    resolveKey "local:" = .ok ⟨.«local», ""⟩ ∧
    resolveKey "foo:bar" = .error (.invalidArea "foo") ∧
    resolveKey "nodelimiter" = .error (.invalidArea "") :=
  ⟨rfl, rfl, rfl⟩

/-- Claim C7 (code bug in the source): `getMeta` degrades arrays, strings,
numbers, booleans and absence to `{}`, but a stored literal `null` at the
shadow key is returned as `null` itself — `typeof null === 'object'`
passes `getMetaValue`'s object check — contradicting the module's own
contract that any non-object stored value yields an empty object.  The
final conjunct shows a batched driver write (`driver.setItems`) can store
a literal `null` at a shadow key, so the state is reachable. -/
theorem C7_getMeta_null_escapes :
    getMeta [("k$", Json.null)] "k" = Json.null ∧
    Json.null ≠ Json.obj [] ∧
    getMeta [("k$", Json.arr [Json.num 1])] "k" = Json.obj [] ∧
    getMeta [("k$", Json.str "x")] "k" = Json.obj [] ∧
    getMeta [("k$", Json.num 5)] "k" = Json.obj [] ∧
    getMeta [("k$", Json.bool true)] "k" = Json.obj [] ∧
    getMeta [] "k" = Json.obj [] ∧
    driverSetItems [] [("k$", Json.null)] = [("k$", Json.null)] :=
  ⟨rfl, fun h => Json.noConfusion h, rfl, rfl, rfl, rfl, rfl, rfl⟩

/-- Claim C8: null and absence are equivalent.  After `setItem(k, v)` with
non-null `v`, `getItem(k)` returns `v` under any options; after
`setItem(k, null)` the key is removed, and `getItem(k)` returns the call's
configured fallback coalesced with `null` — in particular `null` itself
when no fallback is configured. -/
theorem C8_null_set_is_removal (st : StorageState) (key : String) (v : Json)
    (r : ResolvedKey) (hres : resolveKey key = .ok r) (hv : v.isNull = false) :
    (∃ st', storageSetItem st key v = .ok st' ∧
       ∀ opts, storageGetItem st' key opts = .ok v) ∧
    (∃ st', storageSetItem st key Json.null = .ok st' ∧
       (∀ opts, storageGetItem st' key opts =
          .ok (jsCoalesce (optsFallback opts) Json.null)) ∧
       storageGetItem st' key none = .ok Json.null) := by
  constructor
  · refine ⟨st.withArea r.driverArea (setItem (st.area r.driverArea) r.driverKey v),
      ?_, ?_⟩
    · simp [storageSetItem, hres]
    · intro opts
      simp only [storageGetItem, hres, Except.bind]
      rw [area_withArea_self]
      simp [getItem, setItem, driverSetItem, hv, driverGetItem, jsObjGet_set_self,
        getValueOrFallback, jsCoalesce]
  · refine ⟨st.withArea r.driverArea
        (setItem (st.area r.driverArea) r.driverKey Json.null), ?_, ?_, ?_⟩
    · simp [storageSetItem, hres]
    · intro opts
      simp only [storageGetItem, hres, Except.bind]
      rw [area_withArea_self]
      simp [getItem, setItem, driverSetItem, Json.isNull, driverGetItem,
        jsObjGet_delete, getValueOrFallback, jsCoalesce]
    · simp only [storageGetItem, hres]
      rw [area_withArea_self]
      simp [getItem, setItem, driverSetItem, Json.isNull, driverGetItem,
        jsObjGet_delete, getValueOrFallback, jsCoalesce, optsFallback]

/-- Witness for C8 at a concrete input. -/
theorem C8_null_set_is_removal_witness :
    ((Json.num 5).isNull = false) ∧
    (∃ st', storageSetItem ⟨[], [], [], []⟩ "local:a" (Json.num 5) = .ok st' ∧
       ∀ opts, storageGetItem st' "local:a" opts = .ok (Json.num 5)) ∧
    (∃ st', storageSetItem ⟨[], [], [], []⟩ "local:a" Json.null = .ok st' ∧
       storageGetItem st' "local:a" none = .ok Json.null) := by
  have h := C8_null_set_is_removal ⟨[], [], [], []⟩ "local:a" (Json.num 5)
    ⟨.«local», "a"⟩ rfl rfl
  exact ⟨rfl, h.1, h.2.elim fun st' hp => ⟨st', hp.1, hp.2.2⟩⟩

/-- Lookup after `snapshot`'s exclusion loop (source lines 259-262). -/
theorem snapshotFold_lookup (ex : List String) (data : JsObj) (k : String) :
    jsObjGet
      (ex.foldl (fun d key => jsObjDelete (jsObjDelete d key) (getMetaKey key)) data) k =
      if k ∈ ex ∨ (∃ e ∈ ex, getMetaKey e = k) then none
      else jsObjGet data k := by
  induction ex generalizing data with
  | nil => simp
  | cons e rest ih =>
    simp only [List.foldl_cons]
    rw [ih]
    by_cases h1 : k = e
    · subst h1
      have hc : k ∈ k :: rest ∨ ∃ x ∈ k :: rest, getMetaKey x = k :=
        Or.inl (List.mem_cons_self _ _)
      rw [if_pos hc]
      split
      · rfl
      · rw [jsObjGet_delete, jsObjGet_delete]
        by_cases hh : k = getMetaKey k
        · rw [if_pos hh]
        · rw [if_neg hh, if_pos rfl]
    · by_cases h3 : k = getMetaKey e
      · have hc : k ∈ e :: rest ∨ ∃ x ∈ e :: rest, getMetaKey x = k :=
          Or.inr ⟨e, List.mem_cons_self _ _, h3.symm⟩
        rw [if_pos hc]
        split
        · rfl
        · rw [jsObjGet_delete]
          simp [h3]
      · by_cases h2 : k ∈ rest ∨ ∃ x ∈ rest, getMetaKey x = k
        · have hc : k ∈ e :: rest ∨ ∃ x ∈ e :: rest, getMetaKey x = k := by
            rcases h2 with h | ⟨x, hx, he⟩
            · exact Or.inl (List.mem_cons_of_mem _ h)
            · exact Or.inr ⟨x, List.mem_cons_of_mem _ hx, he⟩
          rw [if_pos h2, if_pos hc]
        · have hc : ¬(k ∈ e :: rest ∨ ∃ x ∈ e :: rest, getMetaKey x = k) := by
            rintro (h | ⟨x, hx, he⟩)
            · rcases List.mem_cons.mp h with h | h
              · exact h1 h
              · exact h2 (Or.inl h)
            · rcases List.mem_cons.mp hx with h | h
              · exact h3 (h ▸ he).symm
              · exact h2 (Or.inr ⟨x, h, he⟩)
          rw [if_neg h2, if_neg hc]
          rw [jsObjGet_delete, jsObjGet_delete]
          simp [h1, h3]

/-- Claim C10: for every area and key listed in `snapshot`'s `excludeKeys`
option, the returned snapshot omits both the key and its derived shadow
metadata key (the key with the `$` suffix appended); every other entry of
the area's key-value space is returned unchanged. -/
theorem C10_snapshot_excludes (st : StorageState) (base : StorageArea)
    (excludeKeys : List String) (k : String) :
    jsObjGet (storageSnapshot st base excludeKeys) k =
      if k ∈ excludeKeys ∨ (∃ e ∈ excludeKeys, getMetaKey e = k) then none
      else jsObjGet ((st.area base)) k :=
  snapshotFold_lookup excludeKeys (st.area base) k

/-- Claim C6: `setMeta` performs a per-field merge on the shadow key's
mapping.  For an item whose shadow mapping currently reads as the object
`m0`, after `setMeta` with input `properties` the shadow mapping is again
an object, and looking up any field gives: the input's value when the
input carries a non-null value for it, nothing when the input carries
`null` for it, and the previously stored value otherwise (fields not
mentioned in the input survive unchanged). -/
theorem C6_setMeta_field_merge (store : JsObj) (driverKey : String)
    (properties : List (String × Json)) (m0 : List (String × Json))
    (hm : getMeta store driverKey = .obj m0)
    (hnodup : (properties.map Prod.fst).Nodup) (field : String) :
    getMeta (setMeta store driverKey properties) driverKey =
      .obj (jsonFields (getMeta (setMeta store driverKey properties) driverKey)) ∧
    jsObjGet (jsonFields (getMeta (setMeta store driverKey properties) driverKey)) field =
      match jsObjGet properties field with
      | some v => if v.isNull = true then none else some v
      | none => jsObjGet m0 field := by
  have hm' : getMetaValue (driverGetItem store (getMetaKey driverKey)) = .obj m0 := hm
  have hset : setMeta store driverKey properties =
      jsObjSet store (getMetaKey driverKey)
        (.obj (properties.foldl
          (fun nf kv => if kv.2.isNull then jsObjDelete nf kv.1 else jsObjSet nf kv.1 kv.2)
          m0)) := by
    simp only [setMeta]
    rw [hm']
    rfl
  rw [hset]
  unfold getMeta driverGetItem
  rw [jsObjGet_set_self]
  exact ⟨rfl, setMetaFold_lookup properties m0 field hnodup⟩

/-- Witness for C6 at concrete inputs: `setMeta` on a mapping `{a: 1}`
with input `{b: 2}` keeps `a` and adds `b`, and with input `{a: null}`
removes `a`. -/
theorem C6_setMeta_field_merge_witness :
    jsObjGet (jsonFields (getMeta
        (setMeta [("k$", Json.obj [("a", Json.num 1)])] "k" [("b", Json.num 2)]) "k"))
      "a" = some (Json.num 1) ∧
    jsObjGet (jsonFields (getMeta
        (setMeta [("k$", Json.obj [("a", Json.num 1)])] "k" [("b", Json.num 2)]) "k"))
      "b" = some (Json.num 2) ∧
    jsObjGet (jsonFields (getMeta
        (setMeta [("k$", Json.obj [("a", Json.num 1)])] "k" [("a", Json.null)]) "k"))
      "a" = none := by
  refine ⟨?_, ?_, ?_⟩
  · have h := (C6_setMeta_field_merge [("k$", Json.obj [("a", Json.num 1)])] "k"
      [("b", Json.num 2)] [("a", Json.num 1)] rfl (by simp) "a").2
    simpa using h
  · have h := (C6_setMeta_field_merge [("k$", Json.obj [("a", Json.num 1)])] "k"
      [("b", Json.num 2)] [("a", Json.num 1)] rfl (by simp) "b").2
    simpa using h
  · have h := (C6_setMeta_field_merge [("k$", Json.obj [("a", Json.num 1)])] "k"
      [("a", Json.null)] [("a", Json.num 1)] rfl (by simp) "a").2
    simpa using h

/-! ## Migration engine (`defineItem`'s `migrate`, source lines 303–339) -/

/-- `meta?.v` (source line 311): optional-chained property access on the
batch-read shadow value; `undefined` unless the value is an object with a
`v` field (property access on primitives and arrays yields `undefined`
for this name). -/
def metaVersionField : Json → Option Json
  | .obj fs => jsObjGet fs "v"
  | _ => none

/-- The versions the migration loop visits (source lines 321–324):
`Array.from({length: targetVersion - currentVersion}, (_, i) => currentVersion + i + 1)`
— the ascending integers from `currentVersion + 1` to `targetVersion`
(empty when `targetVersion ≤ currentVersion`). -/
def migrationsToRun (currentVersion targetVersion : Int) : List Int :=
  (List.range (targetVersion - currentVersion).toNat).map
    (fun (i : Nat) => currentVersion + (i : Int) + 1)

/-- One iteration of the migration loop (source lines 326–330):
`migratedValue = (await migrations?.[migrateToVersion]?.(migratedValue)) ?? migratedValue`.
A version with no registered function — the optional chain short-circuits
to `undefined` — or a migration returning a nullish result leaves the
running value unchanged. -/
def applyMigration (migrations : Int → Option (Json → Json)) (v : Int)
    (value : Json) : Json :=
  match migrations v with
  | some f => jsCoalesce (some (f value)) value
  | none => value

/-- What one `migrate()` call produced: the result surfaced to the caller,
the area store afterwards, and the list of batched `driver.setItems`
calls the run issued (each inner list is one batch). -/
structure MigrateOutcome where
  result : Except StorageError Unit
  store : JsObj
  writes : List (List (String × Json))

/-- The `migrate` closure of `defineItem` (source lines 303–339) for an
item with local key `driverKey`, target version `targetVersion` and
migration map `migrations`, run against one area's store:
* lines 305–308: one batched read of the value and its shadow meta
  (absence coalescing to `null`);
* line 309: a nullish stored value returns immediately — no loop, no
  write;
* lines 311–316: `currentVersion = meta?.v ?? 1`, and a stored version
  above the target throws the downgrade error before any write;
* lines 321–330: the loop over `migrationsToRun`, folded over
  `applyMigration`;
* lines 331–334: a single batched `driver.setItems` commit of the migrated
  value together with `{...meta, v: targetVersion}`.
Returns `none` only when the stored version field is a non-null,
non-numeric JSON value, whose JS numeric coercion the model does not
cover (the surrounding code never writes such a version). -/
def migrate (migrations : Int → Option (Json → Json)) (targetVersion : Int)
    (driverKey : String) (store : JsObj) : Option MigrateOutcome :=
  let driverMetaKey := getMetaKey driverKey
  let value := jsCoalesce (jsObjGet store driverKey) Json.null
  let meta := jsCoalesce (jsObjGet store driverMetaKey) Json.null
  if value.isNull then
    some ⟨.ok (), store, []⟩
  else
    match jsCoalesce (metaVersionField meta) (Json.num 1) with
    | .num currentVersion =>
      if currentVersion > targetVersion then
        some ⟨.error (.versionDowngrade currentVersion targetVersion driverKey),
          store, []⟩
      else
        let migratedValue :=
          (migrationsToRun currentVersion targetVersion).foldl
            (fun v ver => applyMigration migrations ver v) value
        let commit :=
          [(driverKey, migratedValue),
           (driverMetaKey,
            Json.obj (jsObjSet (jsSpread meta) "v" (Json.num targetVersion)))]
        some ⟨.ok (), driverSetItems store commit, [commit]⟩
    | _ => none

theorem mem_migrationsToRun {sv tv v : Int} :
    v ∈ migrationsToRun sv tv ↔ sv < v ∧ v ≤ tv := by
  unfold migrationsToRun
  rw [List.mem_map]
  constructor
  · rintro ⟨i, hi, rfl⟩
    rw [List.mem_range] at hi
    omega
  · intro h
    refine ⟨(v - sv - 1).toNat, ?_, ?_⟩
    · rw [List.mem_range]
      omega
    · omega

theorem pairwise_migrationsToRun (sv tv : Int) :
    (migrationsToRun sv tv).Pairwise (· < ·) := by
  unfold migrationsToRun
  rw [List.pairwise_map]
  refine (List.pairwise_lt_range _).imp ?_
  intro a b hab
  omega

theorem getMetaKey_ne (k : String) : k ≠ getMetaKey k := by
  intro h
  have h2 := congrArg String.length h
  simp only [getMetaKey, String.length_append] at h2
  have h3 : "$".length = 1 := rfl
  omega

/-- A two-entry batch with distinct keys is two JS property writes. -/
theorem driverSetItems_pair (store : JsObj) (k1 k2 : String) (v1 v2 : Json)
    (h : k1 ≠ k2) :
    driverSetItems store [(k1, v1), (k2, v2)] =
      jsObjSet (jsObjSet store k1 v1) k2 v2 := by
  simp [driverSetItems, jsObjSet, h]

/-- Claim C1: for a defined item whose stored value is present, `migrate`
succeeds and leaves at the item's key the result of folding the migration
steps over the ascending versions from `storedVersion + 1` up to
`targetVersion` (the conjuncts characterize that version list as exactly
the ascending integers of that interval); a version with no registered
function passes the value through unchanged; the stored version defaults
to 1 when no version metadata is present; and when the stored value is
absent no migration and no write happens at all. -/
theorem C1_migration_loop (migrations : Int → Option (Json → Json))
    (targetVersion : Int) (driverKey : String) (store : JsObj) :
    ((jsCoalesce (jsObjGet store driverKey) Json.null).isNull = true →
      migrate migrations targetVersion driverKey store = some ⟨.ok (), store, []⟩) ∧
    (∀ meta, metaVersionField meta = none →
      jsCoalesce (metaVersionField meta) (Json.num 1) = Json.num 1) ∧
    (∀ v x, migrations v = none → applyMigration migrations v x = x) ∧
    (∀ sv v, v ∈ migrationsToRun sv targetVersion ↔ sv < v ∧ v ≤ targetVersion) ∧
    (∀ sv, (migrationsToRun sv targetVersion).Pairwise (· < ·)) ∧
    (∀ sv,
      (jsCoalesce (jsObjGet store driverKey) Json.null).isNull = false →
      jsCoalesce
        (metaVersionField (jsCoalesce (jsObjGet store (getMetaKey driverKey)) Json.null))
        (Json.num 1) = Json.num sv →
      sv ≤ targetVersion →
      ∃ out, migrate migrations targetVersion driverKey store = some out ∧
        out.result = .ok () ∧
        jsObjGet out.store driverKey = some
          ((migrationsToRun sv targetVersion).foldl
            (fun v ver => applyMigration migrations ver v)
            (jsCoalesce (jsObjGet store driverKey) Json.null))) := by
  refine ⟨?_, ?_, ?_, ?_, ?_, ?_⟩
  · intro h
    unfold migrate
    simp only [h, if_true]
  · intro meta h
    rw [h]
    rfl
  · intro v x h
    simp [applyMigration, h]
  · intro sv v
    exact mem_migrationsToRun
  · intro sv
    exact pairwise_migrationsToRun sv targetVersion
  · intro sv hv hsv hle
    unfold migrate
    simp only [hv, Bool.false_eq_true, if_false, hsv]
    rw [if_neg (not_lt.mpr hle)]
    refine ⟨_, rfl, rfl, ?_⟩
    rw [driverSetItems_pair _ _ _ _ _ (getMetaKey_ne driverKey)]
    rw [jsObjGet_set_other _ _ _ _ (getMetaKey_ne driverKey)]
    exact jsObjGet_set_self _ _ _

/-- Witness for C1 at the spec's concrete scenario: stored value `{x: 1}`
at version 1, migrations registered for versions 2 and 3, target version 3. -/
theorem C1_migration_loop_witness :
    ∃ out,
      migrate
        (fun v =>
          if v = 2 then
            some (fun j => Json.obj (jsObjSet (jsonFields j) "y" (Json.num 2)))
          else if v = 3 then
            some (fun j => Json.obj (jsObjSet (jsonFields j) "z" (Json.num 3)))
          else none)
        3 "k" [("k", Json.obj [("x", Json.num 1)]), ("k$", Json.obj [("v", Json.num 1)])]
      = some out ∧
      out.result = .ok () ∧
      jsObjGet out.store "k" =
        some (Json.obj [("x", Json.num 1), ("y", Json.num 2), ("z", Json.num 3)]) := by
  obtain ⟨out, h1, h2, h3⟩ :=
    (C1_migration_loop
      (fun v =>
        if v = 2 then
          some (fun j => Json.obj (jsObjSet (jsonFields j) "y" (Json.num 2)))
        else if v = 3 then
          some (fun j => Json.obj (jsObjSet (jsonFields j) "z" (Json.num 3)))
        else none)
      3 "k"
      [("k", Json.obj [("x", Json.num 1)]), ("k$", Json.obj [("v", Json.num 1)])]).2.2.2.2.2
      1 rfl rfl (by omega)
  refine ⟨out, h1, h2, ?_⟩
  rw [h3]
  rfl

/-- Claim C2: when the stored version is strictly greater than the target
version, `migrate` fails with the version-downgrade error, the store is
unchanged, and no batched write was issued (the write trace is empty). -/
theorem C2_version_downgrade (migrations : Int → Option (Json → Json))
    (targetVersion : Int) (driverKey : String) (store : JsObj) (sv : Int)
    (hv : (jsCoalesce (jsObjGet store driverKey) Json.null).isNull = false)
    (hsv : jsCoalesce
      (metaVersionField (jsCoalesce (jsObjGet store (getMetaKey driverKey)) Json.null))
      (Json.num 1) = Json.num sv)
    (hgt : targetVersion < sv) :
    migrate migrations targetVersion driverKey store =
      some ⟨.error (.versionDowngrade sv targetVersion driverKey), store, []⟩ := by
  unfold migrate
  simp only [hv, Bool.false_eq_true, if_false, hsv]
  rw [if_pos hgt]

/-- Witness for C2: stored version 3, target version 1. -/
theorem C2_version_downgrade_witness :
    migrate (fun _ => none) 1 "k"
        [("k", Json.num 10), ("k$", Json.obj [("v", Json.num 3)])] =
      some ⟨.error (.versionDowngrade 3 1 "k"),
        [("k", Json.num 10), ("k$", Json.obj [("v", Json.num 3)])], []⟩ :=
  C2_version_downgrade (fun _ => none) 1 "k"
    [("k", Json.num 10), ("k$", Json.obj [("v", Json.num 3)])] 3 rfl rfl (by omega)

/-- Claim C3: after the loop, `migrate` persists the migrated value and
the new version together as a single batched write — the write trace is
one `driver.setItems` call whose batch holds exactly the value key and its
shadow metadata key — and the committed metadata is the existing metadata
object with only its `v` field replaced by the target version: every other
field reads back unchanged. -/
theorem C3_commit_single_batch (migrations : Int → Option (Json → Json))
    (targetVersion : Int) (driverKey : String) (store : JsObj) (sv : Int)
    (hv : (jsCoalesce (jsObjGet store driverKey) Json.null).isNull = false)
    (hsv : jsCoalesce
      (metaVersionField (jsCoalesce (jsObjGet store (getMetaKey driverKey)) Json.null))
      (Json.num 1) = Json.num sv)
    (hle : sv ≤ targetVersion)
    (hshape : jsCoalesce (jsObjGet store (getMetaKey driverKey)) Json.null =
        Json.obj (jsonFields (jsCoalesce (jsObjGet store (getMetaKey driverKey)) Json.null)) ∨
      jsCoalesce (jsObjGet store (getMetaKey driverKey)) Json.null = Json.null) :
    ∃ out, migrate migrations targetVersion driverKey store = some out ∧
      out.result = .ok () ∧
      out.writes =
        [[(driverKey,
            (migrationsToRun sv targetVersion).foldl
              (fun v ver => applyMigration migrations ver v)
              (jsCoalesce (jsObjGet store driverKey) Json.null)),
          (getMetaKey driverKey,
            Json.obj (jsObjSet
              (jsonFields (jsCoalesce (jsObjGet store (getMetaKey driverKey)) Json.null))
              "v" (Json.num targetVersion)))]] ∧
      out.store = driverSetItems store
        [(driverKey,
          (migrationsToRun sv targetVersion).foldl
            (fun v ver => applyMigration migrations ver v)
            (jsCoalesce (jsObjGet store driverKey) Json.null)),
         (getMetaKey driverKey,
          Json.obj (jsObjSet
            (jsonFields (jsCoalesce (jsObjGet store (getMetaKey driverKey)) Json.null))
            "v" (Json.num targetVersion)))] ∧
      jsObjGet
        (jsObjSet
          (jsonFields (jsCoalesce (jsObjGet store (getMetaKey driverKey)) Json.null))
          "v" (Json.num targetVersion)) "v" = some (Json.num targetVersion) ∧
      (∀ f, f ≠ "v" →
        jsObjGet
          (jsObjSet
            (jsonFields (jsCoalesce (jsObjGet store (getMetaKey driverKey)) Json.null))
            "v" (Json.num targetVersion)) f =
        jsObjGet
          (jsonFields (jsCoalesce (jsObjGet store (getMetaKey driverKey)) Json.null)) f) := by
  have hspread : jsSpread (jsCoalesce (jsObjGet store (getMetaKey driverKey)) Json.null) =
      jsonFields (jsCoalesce (jsObjGet store (getMetaKey driverKey)) Json.null) := by
    rcases hshape with h | h <;> rw [h] <;> rfl
  unfold migrate
  simp only [hv, Bool.false_eq_true, if_false, hsv]
  rw [if_neg (not_lt.mpr hle), hspread]
  refine ⟨_, rfl, rfl, rfl, rfl, jsObjGet_set_self _ _ _, ?_⟩
  intro f hf
  exact jsObjGet_set_other _ _ _ _ hf

/-- Witness for C3: stored value 10 at version 1 with an extra metadata
field `keep`, target version 2, no registered migrations — one batched
write containing both keys, with `keep` surviving. -/
theorem C3_commit_single_batch_witness :
    ∃ out,
      migrate (fun _ => none) 2 "k"
          [("k", Json.num 10),
           ("k$", Json.obj [("v", Json.num 1), ("keep", Json.str "s")])]
        = some out ∧
      out.result = .ok () ∧
      out.writes =
        [[("k", Json.num 10),
          ("k$", Json.obj [("v", Json.num 2), ("keep", Json.str "s")])]] := by
  obtain ⟨out, h1, h2, h3, _h4, _h5, _h6⟩ :=
    C3_commit_single_batch (fun _ => none) 2 "k"
      [("k", Json.num 10), ("k$", Json.obj [("v", Json.num 1), ("keep", Json.str "s")])]
      1 rfl rfl (by omega) (Or.inl rfl)
  refine ⟨out, h1, h2, ?_⟩
  rw [h3]
  rfl

/-! ## Batch aggregator: `storage.getItems` (source lines 129–176) -/

/-- JS `Map.get` over an insertion-ordered association list. -/
def amGet {α β : Type} [DecidableEq α] : List (α × β) → α → Option β
  | [], _ => none
  | (k, v) :: rest, a => if k = a then some v else amGet rest a

/-- JS `Map.set`: overwrite the existing entry in place, else append. -/
def amSet {α β : Type} [DecidableEq α] : List (α × β) → α → β → List (α × β)
  | [], a, b => [(a, b)]
  | (k, v) :: rest, a, b =>
    if k = a then (a, b) :: rest else (k, v) :: amSet rest a b

theorem amGet_set_self {α β : Type} [DecidableEq α]
    (m : List (α × β)) (a : α) (b : β) : amGet (amSet m a b) a = some b := by
  induction m with
  | nil => simp [amSet, amGet]
  | cons p rest ih =>
    obtain ⟨k, v⟩ := p
    by_cases h : k = a <;> simp [amSet, amGet, h, ih]

theorem amGet_set_other {α β : Type} [DecidableEq α]
    (m : List (α × β)) (a a' : α) (b : β) (hne : a' ≠ a) :
    amGet (amSet m a b) a' = amGet m a' := by
  induction m with
  | nil => simp [amSet, amGet, Ne.symm hne]
  | cons p rest ih =>
    obtain ⟨k, v⟩ := p
    by_cases h : k = a
    · subst h
      simp [amSet, amGet, hne, Ne.symm hne]
    · by_cases h' : k = a'
      · subst h'
        simp [amSet, amGet, h, hne]
      · simp [amSet, amGet, h, h', ih]

theorem amGet_mem {α β : Type} [DecidableEq α] {m : List (α × β)} {a : α} {b : β}
    (h : amGet m a = some b) : (a, b) ∈ m := by
  induction m with
  | nil => simp [amGet] at h
  | cons p rest ih =>
    obtain ⟨k, v⟩ := p
    by_cases hk : k = a
    · subst hk
      simp only [amGet, eq_self_iff_true, if_true, Option.some.injEq] at h
      subst h
      exact List.mem_cons_self _ _
    · simp only [amGet, if_neg hk] at h
      exact List.mem_cons_of_mem _ (ih h)

/-- One entry of `storage.getItems`' argument (source lines 134–148): a
bare key string, a defined item (branch `'getValue' in key`, whose
options become `{fallback: item.fallback}` — an item's `fallback` getter
is never `undefined`, though it may be `null`), or a `{key, options}`
pair. -/
inductive GetItemsEntry where
  | key (key : String)
  | item (key : String) (fallback : Json)
  | keyWithOpts (key : String) (options : Option GetItemOptions)

/-- The key string an entry contributes (`keyStr` in the source). -/
def GetItemsEntry.keyStr : GetItemsEntry → String
  | .key k => k
  | .item k _ => k
  | .keyWithOpts k _ => k

/-- The options an entry contributes (`opts` in the source). -/
def GetItemsEntry.entryOpts : GetItemsEntry → Option GetItemOptions
  | .key _ => none
  | .item _ fb => some { defaultValue := none, fallback := some fb }
  | .keyWithOpts _ o => o

/-- The first pass of `storage.getItems` (source lines 130–154): record
the caller's key order, group driver keys by area (JS `Map` semantics:
areas in first-insertion order, each area's bucket extended at its end),
and remember each key's options.  A key that fails to resolve aborts the
pass with the thrown error. -/
def getItemsCollect :
    List GetItemsEntry → List String → List (StorageArea × List String) →
    List (String × Option GetItemOptions) →
    Except StorageError
      (List String × List (StorageArea × List String) ×
        List (String × Option GetItemOptions))
  | [], orderedKeys, areaToKeyMap, keyToOptsMap =>
    .ok (orderedKeys, areaToKeyMap, keyToOptsMap)
  | e :: rest, orderedKeys, areaToKeyMap, keyToOptsMap =>
    match resolveKey e.keyStr with
    | .error err => .error err
    | .ok r =>
      getItemsCollect rest (orderedKeys ++ [e.keyStr])
        (amSet areaToKeyMap r.driverArea
          ((amGet areaToKeyMap r.driverArea).getD [] ++ [r.driverKey]))
        (amSet keyToOptsMap e.keyStr e.entryOpts)

/-- The per-area batches of `storage.getItems` (source lines 156–170).
`Promise.all` starts one closure per area; each closure reads its area's
whole batch with one `driver.getItems` call and stores each result in
`resultsMap` under the reassembled key `` `${driverArea}:${key}` ``.
Closures of different areas write disjoint result keys (the key carries
the area prefix), so every interleaving computes the same map; the model
runs the areas in map order. -/
def getItemsDispatch (st : StorageState)
    (keyToOptsMap : List (String × Option GetItemOptions)) :
    List (StorageArea × List String) → List (String × Json) →
    List (String × Json)
  | [], resultsMap => resultsMap
  | (area, keys) :: rest, resultsMap =>
    getItemsDispatch st keyToOptsMap rest
      ((driverGetItems (st.area area) keys).foldl
        (fun rm dr =>
          amSet rm (areaName area ++ ":" ++ dr.1)
            (getValueOrFallback (some dr.2)
              (optsFallback ((amGet keyToOptsMap (areaName area ++ ":" ++ dr.1)).getD none))))
        resultsMap)

/-- `storage.getItems` (source lines 129–176): collect and group, dispatch
one batched read per area, then reassemble one entry per requested key in
the caller's order (`resultsMap.get` returning `none` would be an
`undefined` hole in the result). -/
def storageGetItems (st : StorageState) (keys : List GetItemsEntry) :
    Except StorageError (List (String × Option Json)) :=
  match getItemsCollect keys [] [] [] with
  | .error e => .error e
  | .ok (orderedKeys, areaToKeyMap, keyToOptsMap) =>
    let resultsMap := getItemsDispatch st keyToOptsMap areaToKeyMap []
    .ok (orderedKeys.map (fun key => (key, amGet resultsMap key)))

theorem amGet_isSome_set {α β : Type} [DecidableEq α] (m : List (α × β))
    (a a' : α) (b : β) (h : (amGet m a').isSome) :
    (amGet (amSet m a b) a').isSome := by
  by_cases he : a' = a
  · subst he
    rw [amGet_set_self]
    rfl
  · rw [amGet_set_other _ _ _ _ he]
    exact h

theorem foldl_amSet_preserves {α β γ : Type} [DecidableEq α]
    (l : List γ) (f : γ → α) (g : γ → β) (rm : List (α × β)) (a : α)
    (h : (amGet rm a).isSome) :
    (amGet (l.foldl (fun rm x => amSet rm (f x) (g x)) rm) a).isSome := by
  induction l generalizing rm with
  | nil => exact h
  | cons x rest ih => exact ih _ (amGet_isSome_set _ _ _ _ h)

theorem foldl_amSet_covers {α β γ : Type} [DecidableEq α]
    (l : List γ) (f : γ → α) (g : γ → β) (rm : List (α × β)) (x : γ)
    (hx : x ∈ l) :
    (amGet (l.foldl (fun rm y => amSet rm (f y) (g y)) rm) (f x)).isSome := by
  induction l generalizing rm with
  | nil => cases hx
  | cons y rest ih =>
    rcases List.mem_cons.mp hx with rfl | hx'
    · exact foldl_amSet_preserves rest f g _ _ (by rw [amGet_set_self]; rfl)
    · exact ih _ hx'


theorem getItemsDispatch_preserves (st : StorageState)
    (omap : List (String × Option GetItemOptions))
    (amap : List (StorageArea × List String)) (rm : List (String × Json))
    (key : String) (h : (amGet rm key).isSome) :
    (amGet (getItemsDispatch st omap amap rm) key).isSome := by
  induction amap generalizing rm with
  | nil => exact h
  | cons p rest ih =>
    obtain ⟨area, keys⟩ := p
    exact ih _
      (foldl_amSet_preserves (driverGetItems (st.area area) keys)
        (fun dr => areaName area ++ ":" ++ dr.1)
        (fun dr => getValueOrFallback (some dr.2)
          (optsFallback ((amGet omap (areaName area ++ ":" ++ dr.1)).getD none)))
        rm key h)

theorem getItemsDispatch_covers (st : StorageState)
    (omap : List (String × Option GetItemOptions))
    (amap : List (StorageArea × List String)) (rm : List (String × Json))
    (area : StorageArea) (keys : List String) (dk : String)
    (hmem : (area, keys) ∈ amap) (hdk : dk ∈ keys) :
    (amGet (getItemsDispatch st omap amap rm) (areaName area ++ ":" ++ dk)).isSome := by
  induction amap generalizing rm with
  | nil => cases hmem
  | cons p rest ih =>
    obtain ⟨a0, ks0⟩ := p
    rcases List.mem_cons.mp hmem with heq | hmem'
    · injection heq with h1 h2
      subst h1
      subst h2
      simp only [getItemsDispatch]
      apply getItemsDispatch_preserves
      exact foldl_amSet_covers (driverGetItems (st.area area) keys)
        (fun dr => areaName area ++ ":" ++ dr.1)
        (fun dr => getValueOrFallback (some dr.2)
          (optsFallback ((amGet omap (areaName area ++ ":" ++ dr.1)).getD none)))
        rm (dk, jsCoalesce (jsObjGet (st.area area) dk) Json.null)
        (List.mem_map_of_mem _ hdk)
    · simp only [getItemsDispatch]
      exact ih _ hmem'

/-- The collection pass succeeds when every key resolves: the ordered key
list is the callers' keys in order, buckets only grow, and each resolved
key's driver key lands in its area's bucket. -/
theorem getItemsCollect_ok (keys : List GetItemsEntry) (ordered : List String)
    (amap : List (StorageArea × List String))
    (omap : List (String × Option GetItemOptions))
    (hres : ∀ e ∈ keys, ∃ r, resolveKey e.keyStr = .ok r) :
    ∃ amap' omap',
      getItemsCollect keys ordered amap omap =
        .ok (ordered ++ keys.map GetItemsEntry.keyStr, amap', omap') ∧
      (∀ a dk, dk ∈ (amGet amap a).getD [] → dk ∈ (amGet amap' a).getD []) ∧
      (∀ e ∈ keys, ∀ r, resolveKey e.keyStr = .ok r →
        r.driverKey ∈ (amGet amap' r.driverArea).getD []) := by
  induction keys generalizing ordered amap omap with
  | nil =>
    exact ⟨amap, omap, by simp [getItemsCollect], fun a dk h => h,
      fun e he => absurd he (List.not_mem_nil e)⟩
  | cons e rest ih =>
    obtain ⟨r, hr⟩ := hres e (List.mem_cons_self _ _)
    have hres' : ∀ e' ∈ rest, ∃ r', resolveKey e'.keyStr = .ok r' :=
      fun e' he' => hres e' (List.mem_cons_of_mem _ he')
    obtain ⟨amap', omap', heq, hgrow, hmem⟩ := ih (ordered ++ [e.keyStr])
      (amSet amap r.driverArea ((amGet amap r.driverArea).getD [] ++ [r.driverKey]))
      (amSet omap e.keyStr e.entryOpts) hres'
    refine ⟨amap', omap', ?_, ?_, ?_⟩
    · simp only [getItemsCollect, hr, heq, List.map_cons]
      rw [List.append_assoc]
      rfl
    · intro a dk hdk
      apply hgrow
      by_cases ha : a = r.driverArea
      · subst ha
        rw [amGet_set_self]
        exact List.mem_append_left _ hdk
      · rw [amGet_set_other _ _ _ _ ha]
        exact hdk
    · intro e' he' r' hr'
      rcases List.mem_cons.mp he' with rfl | he''
      · rw [hr] at hr'
        injection hr' with h
        subst h
        apply hgrow
        rw [amGet_set_self]
        exact List.mem_append_right _ (List.mem_singleton_self _)
      · exact hmem e' he'' r' hr'

/-- Claim C5: for every input list whose keys all resolve, `getItems`
returns exactly one result entry per input, in exactly the order the
caller supplied the keys (and every entry carries an actual value — no
`undefined` holes), even though the request is partitioned by area and
dispatched per area. -/
theorem C5_getItems_order (st : StorageState) (keys : List GetItemsEntry)
    (hres : ∀ e ∈ keys, ∃ r, resolveKey e.keyStr = .ok r) :
    ∃ res, storageGetItems st keys = .ok res ∧
      res.map Prod.fst = keys.map GetItemsEntry.keyStr ∧
      res.length = keys.length ∧
      ∀ p ∈ res, p.2.isSome = true := by
  obtain ⟨amap', omap', heq, _, hmem⟩ := getItemsCollect_ok keys [] [] [] hres
  rw [List.nil_append] at heq
  refine ⟨(keys.map GetItemsEntry.keyStr).map
      (fun key => (key, amGet (getItemsDispatch st omap' amap' []) key)), ?_, ?_, ?_, ?_⟩
  · simp only [storageGetItems, heq]
  · rw [List.map_map]
    simp
  · rw [List.length_map, List.length_map]
  · intro p hp
    rw [List.mem_map] at hp
    obtain ⟨key, hkey, rfl⟩ := hp
    rw [List.mem_map] at hkey
    obtain ⟨e, he, rfl⟩ := hkey
    obtain ⟨r, hr⟩ := hres e he
    have hk := resolveKey_reconstruct hr
    have hbucket := hmem e he r hr
    cases hget : amGet amap' r.driverArea with
    | none =>
      rw [hget] at hbucket
      simp at hbucket
    | some l =>
      rw [hget] at hbucket
      simp only [Option.getD_some] at hbucket
      have hpair := amGet_mem hget
      have hcov := getItemsDispatch_covers st omap' amap' []
        r.driverArea l r.driverKey hpair hbucket
      rw [← hk]
      exact hcov

/-- Witness for C5 at the spec's concrete example:
`getItems(["local:b", "session:a", "local:a"])` returns entries in
exactly that order. -/
theorem C5_getItems_order_witness :
    ∃ res, storageGetItems
        ⟨[("a", Json.num 1), ("b", Json.num 2)], [("a", Json.num 3)], [], []⟩
        [.key "local:b", .key "session:a", .key "local:a"] = .ok res ∧
      res.map Prod.fst = ["local:b", "session:a", "local:a"] ∧
      res.length = 3 ∧
      ∀ p ∈ res, p.2.isSome = true := by
  have h := C5_getItems_order
    ⟨[("a", Json.num 1), ("b", Json.num 2)], [("a", Json.num 3)], [], []⟩
    [.key "local:b", .key "session:a", .key "local:a"]
    (by
      intro e he
      simp only [List.mem_cons, List.not_mem_nil, or_false] at he
      rcases he with rfl | rfl | rfl
      · exact ⟨⟨.«local», "b"⟩, rfl⟩
      · exact ⟨⟨.session, "a"⟩, rfl⟩
      · exact ⟨⟨.«local», "a"⟩, rfl⟩)
  obtain ⟨res, h1, h2, h3, h4⟩ := h
  exact ⟨res, h1, h2, h3, h4⟩

/-! ## Per-item initialization guard (`getOrInitValue`, source lines 347–363)

`getOrInitValue` wraps its body in `initMutex.runExclusive` (an
`async-mutex` `Mutex` created per item instance, line 347).  The body:
read the stored value with `driver.getItem`; if a non-null value exists
(or no `init` is configured) return it; otherwise run `opts.init()` and
persist the produced value with `driver.setItem`.  Two concurrent
`getValue()` calls on an item with an `init` function are modelled as two
tasks interleaving atomic steps of this body; the mutex admits a task
into the body only while no other task holds it. -/

/-- Program counter of one task running `getOrInitValue`. -/
inductive InitPc where
  | start
  | reading
  | deciding (value : Option Json)
  | writing (newValue : Json)
  | releasing
  | done

/-- Shared state of two concurrent `getValue()` calls on one defined item:
the mutex (the task holding it, if any), both tasks' program counters, the
driver's stored value at the item's key (`none` = absent), and counters
for how many times `opts.init()` ran and how many backend writes were
issued. -/
structure InitState where
  lock : Option Bool
  pc0 : InitPc
  pc1 : InitPc
  stored : Option Json
  initCount : Nat
  writeCount : Nat

/-- The program counter of task `i`. -/
def InitState.pc (s : InitState) (i : Bool) : InitPc :=
  if i then s.pc1 else s.pc0

/-- Replace the program counter of task `i`. -/
def InitState.setPc (s : InitState) (i : Bool) (p : InitPc) : InitState :=
  if i then { s with pc1 := p } else { s with pc0 := p }

/-- The JS test `value != null` (source line 355) on a driver read. -/
def jsValueNonNull : Option Json → Bool
  | none => false
  | some v => !v.isNull

/-- One interleaving step of the two tasks.  `opts.init()` always
produces `initVal`; the write goes through `driver.setItem` (so a `null`
result would be a removal).  Every step inside the body requires the
stepping task to hold the mutex. -/
inductive InitStep (initVal : Json) : InitState → InitState → Prop where
  /-- `runExclusive` admits the task: acquire the mutex (line 352). -/
  | acquire (s : InitState) (i : Bool) :
      s.pc i = .start → s.lock = none →
      InitStep initVal s (({ s with lock := some i }).setPc i .reading)
  /-- `await driver.getItem(driverKey)` (line 353). -/
  | read (s : InitState) (i : Bool) :
      s.pc i = .reading → s.lock = some i →
      InitStep initVal s (s.setPc i (.deciding s.stored))
  /-- `if (value != null …) return value` (line 355). -/
  | returnExisting (s : InitState) (i : Bool) (v : Option Json) :
      s.pc i = .deciding v → s.lock = some i → jsValueNonNull v = true →
      InitStep initVal s (s.setPc i .releasing)
  /-- `const newValue = await opts.init()` (line 357). -/
  | runInit (s : InitState) (i : Bool) (v : Option Json) :
      s.pc i = .deciding v → s.lock = some i → jsValueNonNull v = false →
      InitStep initVal s
        (({ s with initCount := s.initCount + 1 }).setPc i (.writing initVal))
  /-- `await driver.setItem(driverKey, newValue)` (line 358). -/
  | write (s : InitState) (i : Bool) (v : Json) :
      s.pc i = .writing v → s.lock = some i →
      InitStep initVal s
        (({ s with stored := if v.isNull then none else some v,
                   writeCount := s.writeCount + 1 }).setPc i .releasing)
  /-- The body returns: `runExclusive` releases the mutex. -/
  | release (s : InitState) (i : Bool) :
      s.pc i = .releasing → s.lock = some i →
      InitStep initVal s (({ s with lock := none }).setPc i .done)

/-- Initial state of two concurrent first `getValue()` calls on an item
with no stored value. -/
def initStart : InitState := ⟨none, .start, .start, none, 0, 0⟩

/-- States reachable by interleaving the two tasks from the start. -/
def InitReachable (initVal : Json) : InitState → Prop :=
  Relation.ReflTransGen (InitStep initVal) initStart

theorem pc_setPc_self (s : InitState) (i : Bool) (p : InitPc) :
    (s.setPc i p).pc i = p := by
  cases i <;> rfl

theorem pc_setPc_other (s : InitState) {i j : Bool} (p : InitPc) (h : j ≠ i) :
    (s.setPc i p).pc j = s.pc j := by
  cases i <;> cases j <;> first | exact absurd rfl h | rfl

theorem setPc_lock (s : InitState) (i : Bool) (p : InitPc) :
    (s.setPc i p).lock = s.lock := by
  cases i <;> rfl

theorem setPc_stored (s : InitState) (i : Bool) (p : InitPc) :
    (s.setPc i p).stored = s.stored := by
  cases i <;> rfl

theorem setPc_initCount (s : InitState) (i : Bool) (p : InitPc) :
    (s.setPc i p).initCount = s.initCount := by
  cases i <;> rfl

theorem setPc_writeCount (s : InitState) (i : Bool) (p : InitPc) :
    (s.setPc i p).writeCount = s.writeCount := by
  cases i <;> rfl

/-- Whether a task is between `opts.init()` and its `driver.setItem`. -/
def isWriting : InitPc → Bool
  | .writing _ => true
  | _ => false

/-- The inductive invariant of the two-task system: only the mutex holder
sits inside the body; a task's read value is the current stored value; a
task about to write carries `initVal` and saw an absent value; the stored
value is absent or `initVal`; the write counter matches presence of the
stored value; every `init` run is matched by a completed or pending
write; and a task past its body saw a present value. -/
def initInv (initVal : Json) (s : InitState) : Prop :=
  (∀ i, s.pc i ≠ .start → s.pc i ≠ .done → s.lock = some i) ∧
  (∀ i v, s.pc i = .deciding v → v = s.stored) ∧
  (∀ i v, s.pc i = .writing v → v = initVal ∧ s.stored = none) ∧
  (s.stored = none ∨ s.stored = some initVal) ∧
  (s.writeCount = if s.stored.isNone then 0 else 1) ∧
  (s.initCount = s.writeCount +
    ((if isWriting (s.pc false) then 1 else 0) +
     (if isWriting (s.pc true) then 1 else 0))) ∧
  (∀ i, s.pc i = .releasing ∨ s.pc i = .done → s.stored ≠ none)

/-- The invariant is preserved by every interleaving step (for a non-null
`initVal`; an `init` producing `null` would write an absence). -/
theorem initInv_step {initVal : Json} (hnn : initVal.isNull = false)
    {s s' : InitState} (hinv : initInv initVal s) (hstep : InitStep initVal s s') :
    initInv initVal s' := by
  obtain ⟨inv1, inv2, inv3, inv4, inv5, inv6, inv7⟩ := hinv
  cases hstep with
  | acquire i hpc hlock =>
    refine ⟨?_, ?_, ?_, ?_, ?_, ?_, ?_⟩
    · intro j h1 h2
      rw [setPc_lock]
      by_cases hji : j = i
      · subst hji
        rfl
      · rw [pc_setPc_other _ _ hji] at h1 h2
        exfalso
        have hl := inv1 j h1 h2
        rw [hlock] at hl
        exact Option.noConfusion hl
    · intro j v hj
      rw [setPc_stored]
      by_cases hji : j = i
      · subst hji
        rw [pc_setPc_self] at hj
        exact InitPc.noConfusion hj
      · rw [pc_setPc_other _ _ hji] at hj
        exact inv2 j v hj
    · intro j v hj
      rw [setPc_stored]
      by_cases hji : j = i
      · subst hji
        rw [pc_setPc_self] at hj
        exact InitPc.noConfusion hj
      · rw [pc_setPc_other _ _ hji] at hj
        exact inv3 j v hj
    · rw [setPc_stored]
      exact inv4
    · rw [setPc_writeCount, setPc_stored]
      exact inv5
    · rw [setPc_initCount, setPc_writeCount]
      cases i
      · show s.initCount = s.writeCount +
          ((if isWriting InitPc.reading then 1 else 0) +
           (if isWriting (s.pc true) then 1 else 0))
        rw [hpc] at inv6
        simpa [isWriting] using inv6
      · show s.initCount = s.writeCount +
          ((if isWriting (s.pc false) then 1 else 0) +
           (if isWriting InitPc.reading then 1 else 0))
        rw [hpc] at inv6
        simpa [isWriting] using inv6
    · intro j hj
      rw [setPc_stored]
      by_cases hji : j = i
      · subst hji
        rw [pc_setPc_self] at hj
        rcases hj with hj | hj <;> exact InitPc.noConfusion hj
      · rw [pc_setPc_other _ _ hji] at hj
        exact inv7 j hj
  | read i hpc hlock =>
    refine ⟨?_, ?_, ?_, ?_, ?_, ?_, ?_⟩
    · intro j h1 h2
      rw [setPc_lock]
      by_cases hji : j = i
      · subst hji
        exact hlock
      · rw [pc_setPc_other _ _ hji] at h1 h2
        exact inv1 j h1 h2
    · intro j v hj
      rw [setPc_stored]
      by_cases hji : j = i
      · subst hji
        rw [pc_setPc_self] at hj
        injection hj with h
        exact h.symm
      · rw [pc_setPc_other _ _ hji] at hj
        exact inv2 j v hj
    · intro j v hj
      rw [setPc_stored]
      by_cases hji : j = i
      · subst hji
        rw [pc_setPc_self] at hj
        exact InitPc.noConfusion hj
      · rw [pc_setPc_other _ _ hji] at hj
        exact inv3 j v hj
    · rw [setPc_stored]
      exact inv4
    · rw [setPc_writeCount, setPc_stored]
      exact inv5
    · rw [setPc_initCount, setPc_writeCount]
      cases i
      · show s.initCount = s.writeCount +
          ((if isWriting (InitPc.deciding s.stored) then 1 else 0) +
           (if isWriting (s.pc true) then 1 else 0))
        rw [hpc] at inv6
        simpa [isWriting] using inv6
      · show s.initCount = s.writeCount +
          ((if isWriting (s.pc false) then 1 else 0) +
           (if isWriting (InitPc.deciding s.stored) then 1 else 0))
        rw [hpc] at inv6
        simpa [isWriting] using inv6
    · intro j hj
      rw [setPc_stored]
      by_cases hji : j = i
      · subst hji
        rw [pc_setPc_self] at hj
        rcases hj with hj | hj <;> exact InitPc.noConfusion hj
      · rw [pc_setPc_other _ _ hji] at hj
        exact inv7 j hj
  | returnExisting i v hpc hlock hnnv =>
    have hvst : v = s.stored := inv2 i v hpc
    have hstoredne : s.stored ≠ none := by
      rw [← hvst]
      cases v with
      | none => simp [jsValueNonNull] at hnnv
      | some x => exact fun h => Option.noConfusion h
    refine ⟨?_, ?_, ?_, ?_, ?_, ?_, ?_⟩
    · intro j h1 h2
      rw [setPc_lock]
      by_cases hji : j = i
      · subst hji
        exact hlock
      · rw [pc_setPc_other _ _ hji] at h1 h2
        exact inv1 j h1 h2
    · intro j v' hj
      rw [setPc_stored]
      by_cases hji : j = i
      · subst hji
        rw [pc_setPc_self] at hj
        exact InitPc.noConfusion hj
      · rw [pc_setPc_other _ _ hji] at hj
        exact inv2 j v' hj
    · intro j v' hj
      rw [setPc_stored]
      by_cases hji : j = i
      · subst hji
        rw [pc_setPc_self] at hj
        exact InitPc.noConfusion hj
      · rw [pc_setPc_other _ _ hji] at hj
        exact inv3 j v' hj
    · rw [setPc_stored]
      exact inv4
    · rw [setPc_writeCount, setPc_stored]
      exact inv5
    · rw [setPc_initCount, setPc_writeCount]
      cases i
      · show s.initCount = s.writeCount +
          ((if isWriting InitPc.releasing then 1 else 0) +
           (if isWriting (s.pc true) then 1 else 0))
        rw [hpc] at inv6
        simpa [isWriting] using inv6
      · show s.initCount = s.writeCount +
          ((if isWriting (s.pc false) then 1 else 0) +
           (if isWriting InitPc.releasing then 1 else 0))
        rw [hpc] at inv6
        simpa [isWriting] using inv6
    · intro j hj
      rw [setPc_stored]
      by_cases hji : j = i
      · subst hji
        exact hstoredne
      · rw [pc_setPc_other _ _ hji] at hj
        exact inv7 j hj
  | runInit i v hpc hlock hnnv =>
    have hvst : v = s.stored := inv2 i v hpc
    have hstored : s.stored = none := by
      rcases inv4 with h | h
      · exact h
      · exfalso
        rw [hvst, h] at hnnv
        simp [jsValueNonNull, hnn] at hnnv
    refine ⟨?_, ?_, ?_, ?_, ?_, ?_, ?_⟩
    · intro j h1 h2
      rw [setPc_lock]
      by_cases hji : j = i
      · subst hji
        exact hlock
      · rw [pc_setPc_other _ _ hji] at h1 h2
        exact inv1 j h1 h2
    · intro j v' hj
      rw [setPc_stored]
      by_cases hji : j = i
      · subst hji
        rw [pc_setPc_self] at hj
        exact InitPc.noConfusion hj
      · rw [pc_setPc_other _ _ hji] at hj
        exact inv2 j v' hj
    · intro j v' hj
      rw [setPc_stored]
      by_cases hji : j = i
      · subst hji
        rw [pc_setPc_self] at hj
        injection hj with h
        exact ⟨h.symm, hstored⟩
      · rw [pc_setPc_other _ _ hji] at hj
        exact inv3 j v' hj
    · rw [setPc_stored]
      exact inv4
    · rw [setPc_writeCount, setPc_stored]
      exact inv5
    · rw [setPc_initCount, setPc_writeCount]
      cases i
      · show s.initCount + 1 = s.writeCount +
          ((if isWriting (InitPc.writing initVal) then 1 else 0) +
           (if isWriting (s.pc true) then 1 else 0))
        rw [hpc] at inv6
        simp [isWriting] at inv6 ⊢
        omega
      · show s.initCount + 1 = s.writeCount +
          ((if isWriting (s.pc false) then 1 else 0) +
           (if isWriting (InitPc.writing initVal) then 1 else 0))
        rw [hpc] at inv6
        simp [isWriting] at inv6 ⊢
        omega
    · intro j hj
      rw [setPc_stored]
      by_cases hji : j = i
      · subst hji
        rw [pc_setPc_self] at hj
        rcases hj with hj | hj <;> exact InitPc.noConfusion hj
      · rw [pc_setPc_other _ _ hji] at hj
        exact inv7 j hj
  | write i v hpc hlock =>
    obtain ⟨hvinit, hstored⟩ := inv3 i v hpc
    have hvnn : v.isNull = false := by
      rw [hvinit]
      exact hnn
    have hother : ∀ j, j ≠ i → s.pc j = .start ∨ s.pc j = .done := by
      intro j hji
      by_cases h1 : s.pc j = .start
      · exact Or.inl h1
      · by_cases h2 : s.pc j = .done
        · exact Or.inr h2
        · exfalso
          have hl := inv1 j h1 h2
          rw [hlock] at hl
          injection hl with h
          exact hji h.symm
    refine ⟨?_, ?_, ?_, ?_, ?_, ?_, ?_⟩
    · intro j h1 h2
      rw [setPc_lock]
      by_cases hji : j = i
      · subst hji
        exact hlock
      · rw [pc_setPc_other _ _ hji] at h1 h2
        exfalso
        rcases hother j hji with h | h
        · exact h1 h
        · exact h2 h
    · intro j v' hj
      by_cases hji : j = i
      · subst hji
        rw [pc_setPc_self] at hj
        exact InitPc.noConfusion hj
      · rw [pc_setPc_other _ _ hji] at hj
        have hj' : s.pc j = InitPc.deciding v' := hj
        exfalso
        rcases hother j hji with h | h <;>
          · rw [h] at hj'
            exact InitPc.noConfusion hj'
    · intro j v' hj
      by_cases hji : j = i
      · subst hji
        rw [pc_setPc_self] at hj
        exact InitPc.noConfusion hj
      · rw [pc_setPc_other _ _ hji] at hj
        have hj' : s.pc j = InitPc.writing v' := hj
        exfalso
        rcases hother j hji with h | h <;>
          · rw [h] at hj'
            exact InitPc.noConfusion hj'
    · rw [setPc_stored]
      right
      show (if v.isNull then none else some v) = some initVal
      simp [hvnn, hvinit, hnn]
    · rw [setPc_writeCount, setPc_stored]
      show s.writeCount + 1 =
        if (if v.isNull then none else some v).isNone then 0 else 1
      rw [hstored] at inv5
      simp only [Option.isNone_none, if_true] at inv5
      simp [hvnn, inv5]
    · rw [setPc_initCount, setPc_writeCount]
      cases i
      · show s.initCount = (s.writeCount + 1) +
          ((if isWriting InitPc.releasing then 1 else 0) +
           (if isWriting (s.pc true) then 1 else 0))
        rw [hpc] at inv6
        simp [isWriting] at inv6 ⊢
        omega
      · show s.initCount = (s.writeCount + 1) +
          ((if isWriting (s.pc false) then 1 else 0) +
           (if isWriting InitPc.releasing then 1 else 0))
        rw [hpc] at inv6
        simp [isWriting] at inv6 ⊢
        omega
    · intro j hj
      rw [setPc_stored]
      show (if v.isNull then none else some v) ≠ none
      simp [hvnn]
  | release i hpc hlock =>
    have hstoredne : s.stored ≠ none := inv7 i (Or.inl hpc)
    refine ⟨?_, ?_, ?_, ?_, ?_, ?_, ?_⟩
    · intro j h1 h2
      by_cases hji : j = i
      · subst hji
        rw [pc_setPc_self] at h2
        exact absurd rfl h2
      · rw [pc_setPc_other _ _ hji] at h1 h2
        exfalso
        have hl := inv1 j h1 h2
        rw [hlock] at hl
        injection hl with h
        exact hji h.symm
    · intro j v hj
      rw [setPc_stored]
      by_cases hji : j = i
      · subst hji
        rw [pc_setPc_self] at hj
        exact InitPc.noConfusion hj
      · rw [pc_setPc_other _ _ hji] at hj
        exact inv2 j v hj
    · intro j v hj
      rw [setPc_stored]
      by_cases hji : j = i
      · subst hji
        rw [pc_setPc_self] at hj
        exact InitPc.noConfusion hj
      · rw [pc_setPc_other _ _ hji] at hj
        exact inv3 j v hj
    · rw [setPc_stored]
      exact inv4
    · rw [setPc_writeCount, setPc_stored]
      exact inv5
    · rw [setPc_initCount, setPc_writeCount]
      cases i
      · show s.initCount = s.writeCount +
          ((if isWriting InitPc.done then 1 else 0) +
           (if isWriting (s.pc true) then 1 else 0))
        rw [hpc] at inv6
        simpa [isWriting] using inv6
      · show s.initCount = s.writeCount +
          ((if isWriting (s.pc false) then 1 else 0) +
           (if isWriting InitPc.done then 1 else 0))
        rw [hpc] at inv6
        simpa [isWriting] using inv6
    · intro j hj
      rw [setPc_stored]
      exact hstoredne

theorem initInv_initStart (initVal : Json) : initInv initVal initStart := by
  refine ⟨?_, ?_, ?_, Or.inl rfl, rfl, rfl, ?_⟩
  · intro i h1 _
    exfalso
    apply h1
    cases i <;> rfl
  · intro i v hj
    exfalso
    cases i <;> exact InitPc.noConfusion hj
  · intro i v hj
    exfalso
    cases i <;> exact InitPc.noConfusion hj
  · intro i hj
    exfalso
    cases i <;> rcases hj with hj | hj <;> exact InitPc.noConfusion hj

/-- Every reachable state satisfies the invariant. -/
theorem initInv_reachable {initVal : Json} (hnn : initVal.isNull = false)
    {s : InitState} (hreach : InitReachable initVal s) : initInv initVal s := by
  unfold InitReachable at hreach
  induction hreach with
  | refl => exact initInv_initStart initVal
  | tail _ hstep ih => exact initInv_step hnn ih hstep

/-- Counterexample to claim C9 as stated: for an item whose `init`
function produces `null`, the guarded write is a removal
(`driver.setItem(key, null)` takes the `remove` branch, source lines
357–358 and 557–563), so the second serialized `getValue()` call still
finds no value and runs `init` again.  The exhibited complete schedule —
task 0 runs the whole body, then task 1 — ends with both tasks done,
two `init` invocations and two backend writes, refuting "exactly one
invocation of init and exactly one backend write". -/
theorem C9_null_init_counterexample :
    InitReachable Json.null ⟨none, .done, .done, none, 2, 2⟩ ∧
    (⟨none, .done, .done, none, 2, 2⟩ : InitState).pc0 = .done ∧
    (⟨none, .done, .done, none, 2, 2⟩ : InitState).pc1 = .done ∧
    ¬((⟨none, .done, .done, none, 2, 2⟩ : InitState).initCount = 1 ∧
      (⟨none, .done, .done, none, 2, 2⟩ : InitState).writeCount = 1) := by
  refine ⟨?_, rfl, rfl, ?_⟩
  · refine Relation.ReflTransGen.head (InitStep.acquire initStart false rfl rfl) ?_
    refine Relation.ReflTransGen.head (InitStep.read _ false rfl rfl) ?_
    refine Relation.ReflTransGen.head (InitStep.runInit _ false none rfl rfl rfl) ?_
    refine Relation.ReflTransGen.head (InitStep.write _ false Json.null rfl rfl) ?_
    refine Relation.ReflTransGen.head (InitStep.release _ false rfl rfl) ?_
    refine Relation.ReflTransGen.head (InitStep.acquire _ true rfl rfl) ?_
    refine Relation.ReflTransGen.head (InitStep.read _ true rfl rfl) ?_
    refine Relation.ReflTransGen.head (InitStep.runInit _ true none rfl rfl rfl) ?_
    refine Relation.ReflTransGen.head (InitStep.write _ true Json.null rfl rfl) ?_
    refine Relation.ReflTransGen.head (InitStep.release _ true rfl rfl) ?_
    exact Relation.ReflTransGen.refl
  · intro h
    exact absurd h.1 (by decide)

/-- Claim C9, amended: for an item with an `init` function producing a
non-null value and no stored value, in every complete interleaving of two
concurrent first `getValue()` calls — both tasks having run to completion
— `opts.init()` was invoked exactly once and exactly one backend write
was issued: the per-item mutex serializes the check-then-write sequence.
The amendment restricts `init` to non-null results, which the
counterexample above shows is necessary: a null result is stored as a
removal, and the claim fails as stated. -/
theorem C9_single_initialization (initVal : Json) (hnn : initVal.isNull = false)
    (s : InitState) (hreach : InitReachable initVal s)
    (h0 : s.pc0 = .done) (h1 : s.pc1 = .done) :
    s.initCount = 1 ∧ s.writeCount = 1 := by
  have hinv : initInv initVal s := initInv_reachable hnn hreach
  obtain ⟨_, _, _, _, inv5, inv6, inv7⟩ := hinv
  have hstored : s.stored ≠ none := by
    apply inv7 false
    right
    show s.pc0 = .done
    exact h0
  have hwc : s.writeCount = 1 := by
    rw [inv5]
    cases hs : s.stored with
    | none => exact absurd hs hstored
    | some x => rfl
  refine ⟨?_, hwc⟩
  have hpcf : s.pc false = .done := h0
  have hpct : s.pc true = .done := h1
  rw [hpcf, hpct] at inv6
  simpa [isWriting, hwc] using inv6

/-- Witness for C9: a complete interleaving — task 0 runs the whole body
(initializing), then task 1 runs and sees the stored value — ends with
one `init` invocation and one write. -/
theorem C9_single_initialization_witness :
    (Json.num 7).isNull = false ∧
    InitReachable (Json.num 7) ⟨none, .done, .done, some (Json.num 7), 1, 1⟩ ∧
    (1 : Nat) = 1 ∧ (1 : Nat) = 1 := by
  have hreach : InitReachable (Json.num 7)
      ⟨none, .done, .done, some (Json.num 7), 1, 1⟩ := by
    refine Relation.ReflTransGen.head (InitStep.acquire initStart false rfl rfl) ?_
    refine Relation.ReflTransGen.head (InitStep.read _ false rfl rfl) ?_
    refine Relation.ReflTransGen.head (InitStep.runInit _ false none rfl rfl rfl) ?_
    refine Relation.ReflTransGen.head (InitStep.write _ false (Json.num 7) rfl rfl) ?_
    refine Relation.ReflTransGen.head (InitStep.release _ false rfl rfl) ?_
    refine Relation.ReflTransGen.head (InitStep.acquire _ true rfl rfl) ?_
    refine Relation.ReflTransGen.head (InitStep.read _ true rfl rfl) ?_
    refine Relation.ReflTransGen.head
      (InitStep.returnExisting _ true (some (Json.num 7)) rfl rfl rfl) ?_
    refine Relation.ReflTransGen.head (InitStep.release _ true rfl rfl) ?_
    exact Relation.ReflTransGen.refl
  refine ⟨rfl, hreach, ?_⟩
  have := C9_single_initialization (Json.num 7) rfl
    ⟨none, .done, .done, some (Json.num 7), 1, 1⟩ hreach rfl rfl
  exact this
